import Mathlib

/-!
Verification development for the beginner AI-agent notebook
(`Beginner_AI_Agent_Notebook.ipynb`).

The notebook defines a simulated weather lookup `get_weather`, a `Tool`
wrapper class, and an `Agent` class holding a dictionary of tools whose
`run` method extracts a location from the user input via
`user_input.strip().split(" in ")[-1].strip(" ?.")`, builds a fixed
action record naming the tool `"get_weather"`, looks the tool up, invokes
it, and prints a four-stage trace.

The embedding below models Python strings as `List Char`, the tool
dictionary as an association list with CPython dict update semantics,
exceptions as `Except`, and the printed trace as a list of structured
trace lines.
-/

/-! ## Python string primitives, modelled on `List Char` -/

/-- The characters removed by Python `str.strip()` with no arguments
(ASCII whitespace). -/
def pyIsSpace (c : Char) : Bool :=
  c = ' ' || c = '\t' || c = '\n' || c = '\r' || c = '\x0b' || c = '\x0c'

/-- The character set of Python `str.strip(" ?.")`. -/
def isQDotSpace (c : Char) : Bool :=
  c = ' ' || c = '?' || c = '.'

/-- Remove leading characters satisfying `p`. -/
def stripL (p : Char → Bool) : List Char → List Char
  | [] => []
  | c :: rest => if p c then stripL p rest else c :: rest

/-- Helper for `stripR`: re-attach `c` in front of an already
right-stripped tail. -/
def keepR (p : Char → Bool) (c : Char) : List Char → List Char
  | [] => if p c then [] else [c]
  | r :: rs => c :: r :: rs

/-- Remove trailing characters satisfying `p`. -/
def stripR (p : Char → Bool) : List Char → List Char
  | [] => []
  | c :: rest => keepR p c (stripR p rest)

/-- Python two-sided strip over a character predicate. -/
def stripBoth (p : Char → Bool) (s : List Char) : List Char :=
  stripR p (stripL p s)

/-- Python `s.strip()`. -/
def pyStrip (s : List Char) : List Char := stripBoth pyIsSpace s

/-- Python `s.strip(" ?.")`. -/
def stripQDot (s : List Char) : List Char := stripBoth isQDotSpace s

/-- Is the first list a prefix of the second? -/
def isPrefixL : List Char → List Char → Bool
  | [], _ => true
  | _ :: _, [] => false
  | p :: ps, c :: cs => if p = c then isPrefixL ps cs else false

/-- Substring containment: does `pat` occur somewhere in the list? -/
def occursL (pat : List Char) : List Char → Bool
  | [] => pat.isEmpty
  | c :: rest => isPrefixL pat (c :: rest) || occursL pat rest

/-- The separator `" in "` used by `Agent.run`. -/
def sepIn : List Char := [' ', 'i', 'n', ' ']

/-- Does the list start with `" in "`? -/
def startsSep (s : List Char) : Bool := isPrefixL sepIn s

/-- Number of (possibly overlapping) occurrences of `" in "`. -/
def countIn : List Char → Nat
  | [] => 0
  | c :: rest => (if startsSep (c :: rest) then 1 else 0) + countIn rest

/-- Helper for `splitIn`: prepend a character to the first segment. -/
def consHead (c : Char) : List (List Char) → List (List Char)
  | [] => [[c]]
  | seg :: segs => (c :: seg) :: segs

/-- Python `s.split(" in ")`: left-to-right, non-overlapping matches of
the separator, as CPython's `str.split` does. -/
def splitIn : List Char → List (List Char)
  | [] => [[]]
  | ' ' :: 'i' :: 'n' :: ' ' :: rest => [] :: splitIn rest
  | c :: rest => consHead c (splitIn rest)

/-- Python `xs[-1]` on a (nonempty) list of segments. -/
def lastSeg : List (List Char) → List Char
  | [] => []
  | [x] => x
  | _ :: y :: xs => lastSeg (y :: xs)

/-- The location-extraction expression of `Agent.run`:
`user_input.strip().split(" in ")[-1].strip(" ?.")`. -/
def extractLocation (user_input : String) : String :=
  String.mk (stripQDot (lastSeg (splitIn (pyStrip user_input.data))))

/-! ## Dictionaries (CPython `dict` semantics on association lists) -/

/-- `d.get(k)` / `d[k]` as first-match association-list lookup. -/
def dictGet {α : Type} (k : String) : List (String × α) → Option α
  | [] => none
  | (k2, v) :: rest => if k = k2 then some v else dictGet k rest

/-- `d[k] = v`: replace the value at an existing key in place, else
append the new binding (CPython insertion order). -/
def dictInsert {α : Type} (k : String) (v : α) :
    List (String × α) → List (String × α)
  | [] => [(k, v)]
  | (k2, v2) :: rest =>
    if k = k2 then (k, v) :: rest else (k2, v2) :: dictInsert k v rest

/-! ## The simulated weather data source -/

/-- The fake weather dictionary. -/
def simulated_weather : List (String × String) :=
  [("New York", "Partly cloudy, 15°C, 60% humidity"),
   ("Tokyo", "Sunny, 28°C, 40% humidity"),
   ("Berlin", "Rainy, 12°C, 85% humidity")]

/-- `get_weather(location)`: table lookup with a fallback string. -/
def get_weather (location : String) : String :=
  (dictGet location simulated_weather).getD "Weather data not available."

/-! ## Tool wrapper and agent -/

/-- A Python keyword-argument mapping (all values in this notebook are
strings). -/
abbrev KwArgs := List (String × String)

/-- The `Tool` class: a name, a description and the wrapped callable.
A callable either returns a string or raises (modelled by `Except`,
the error carrying the exception message). -/
structure Tool where
  name : String
  description : String
  func : KwArgs → Except String String

/-- `Tool.run(**kwargs)`: forward the keyword arguments to the wrapped
callable and return its result unchanged. -/
def Tool.run (t : Tool) (kwargs : KwArgs) : Except String String :=
  t.func kwargs

/-- A Python function object as seen by `register_tool`: its `__name__`,
its `__doc__` (possibly `None`) and its calling behaviour. -/
structure PyFunc where
  name : String
  doc : Option String
  func : KwArgs → Except String String

/-- `get_weather` as a Python callable: exactly one required keyword
parameter `location`; any other argument mapping raises a `TypeError`. -/
def get_weather_py : PyFunc :=
  { name := "get_weather"
    doc := some "Fetches the weather for a given location."
    func := fun kwargs =>
      match kwargs with
      | [("location", v)] => .ok (get_weather v)
      | _ => .error "TypeError" }

/-- The `Agent` class state: the tool dictionary `self.tools`. -/
structure Agent where
  tools : List (String × Tool)

/-- The `Tool(...)` construction inside `register_tool`:
`name=func.__name__`, `description=func.__doc__ or ""`. -/
def mkTool (f : PyFunc) : Tool :=
  { name := f.name, description := (f.doc.getD ""), func := f.func }

/-- `Agent.register_tool(func)`: build the tool and store it under
`tool.name` in the dictionary. -/
def Agent.register_tool (a : Agent) (f : PyFunc) : Agent :=
  { tools := dictInsert (mkTool f).name (mkTool f) a.tools }

/-- The action record built by `Agent.run` (a JSON-like dict). -/
structure ActionRequest where
  action : String
  action_input : KwArgs
deriving DecidableEq

/-- Lines 117-124 of `Agent.run`: extract the location and build the
fixed action record. The tool name is the hardcoded literal
`"get_weather"`; only `action_input` depends on the user input. -/
def planAction (user_input : String) : ActionRequest :=
  { action := "get_weather",
    action_input := [("location", extractLocation user_input)] }

/-- One `print` of `Agent.run`, as a structured event. -/
inductive TraceLine where
  | thought
  | actionLine (action : String) (action_input : KwArgs)
  | toolNotFound
  | observation (result : String)
  | updatedThought
  | finalResponse (location : String) (result : String)
deriving DecidableEq

/-- The outcome of one `Agent.run` call: either it returns normally
having printed `lines`, or the tool call raised and the exception
propagates out of `run` (only the lines printed before it remain). -/
inductive RunOutcome where
  | ok (lines : List TraceLine)
  | raised (linesBefore : List TraceLine) (err : String)
deriving DecidableEq

/-- The lines printed during a run, whether or not it raised. -/
def RunOutcome.lines : RunOutcome → List TraceLine
  | .ok ls => ls
  | .raised ls _ => ls

/-- `Agent.run(user_input)`: Thought, Action, tool lookup (early return
printing a failure notice when the tool is missing), tool invocation,
Observation, Updated Thought, Final Response. -/
def Agent.run (a : Agent) (user_input : String) : RunOutcome :=
  let location := extractLocation user_input
  let action := planAction user_input
  let pre : List TraceLine := [.thought, .actionLine action.action action.action_input]
  match dictGet action.action a.tools with
  | none => .ok (pre ++ [.toolNotFound])
  | some tool =>
    match tool.run action.action_input with
    | .error e => .raised pre e
    | .ok result =>
      .ok (pre ++ [.observation result, .updatedThought,
                   .finalResponse location result])

/-- `run` with the agent state threaded explicitly: the method body
contains no assignment to `self.tools`, so the state component is
returned unchanged. -/
def Agent.runS (a : Agent) (user_input : String) : Agent × RunOutcome :=
  (a, a.run user_input)

/-- The text of the final-response print. -/
def renderFinal (location result : String) : String :=
  "\n💬 Final Response: The current weather in " ++ location ++
    " is: " ++ result

/-- The notebook's demo setup: a fresh agent with `get_weather`
registered. -/
def demoAgent : Agent := (Agent.mk []).register_tool get_weather_py

/-- The registry invariant: keys are unique, and each key equals the
stored tool's name. -/
def RegistryInv (tools : List (String × Tool)) : Prop :=
  (tools.map Prod.fst).Nodup ∧ ∀ kt ∈ tools, kt.1 = kt.2.name

/-- A callable named `dup` (used to exercise duplicate registration). -/
def dupF : PyFunc :=
  { name := "dup", doc := none, func := fun _ => .ok "one" }

/-- A second, different callable also named `dup`. -/
def dupG : PyFunc :=
  { name := "dup", doc := some "second", func := fun _ => .ok "two" }

/-! ## Claim-modelled extraction (for comparison with the code) -/

/-- Whitespace or `?` or `.`: the characters the claim says are
stripped from the extracted segment. -/
def isWsQDot (c : Char) : Bool := pyIsSpace c || c = '?' || c = '.'

/-- Modelled from the claim wording (not from the code): the suffix
after the LAST occurrence of `" in "`, if any. -/
def lastOccSuffix : List Char → Option (List Char)
  | [] => none
  | c :: rest =>
    match lastOccSuffix rest with
    | some l => some l
    | none => if startsSep (c :: rest) then some (rest.drop 3) else none

/-- Modelled from the claim wording (not from the code): the extracted
location is the segment after the last occurrence of `" in "` in the
stripped input, trimmed of surrounding whitespace and `?` and `.`. -/
def claimExtract (user_input : String) : Option String :=
  (lastOccSuffix (pyStrip user_input.data)).map
    (fun l => String.mk (stripBoth isWsQDot l))

/-! ## Lemmas about the string primitives -/

theorem isPrefixL_iff (p : List Char) : ∀ s : List Char,
    isPrefixL p s = true ↔ ∃ t, s = p ++ t := by
  induction p with
  | nil =>
    intro s
    simp [isPrefixL]
  | cons a ps ih =>
    intro s
    cases s with
    | nil =>
      simp [isPrefixL]
    | cons c cs =>
      by_cases h : a = c
      · subst h
        simp [isPrefixL, ih]
      · simp only [isPrefixL, if_neg h, List.cons_append]
        constructor
        · intro hf; exact absurd hf (by decide)
        · rintro ⟨t, ht⟩
          injection ht with h1 h2
          exact absurd h1.symm h

theorem startsSep_sep (r : List Char) :
    startsSep (' ' :: 'i' :: 'n' :: ' ' :: r) = true := rfl

theorem sepIn_append (l : List Char) :
    sepIn ++ l = ' ' :: 'i' :: 'n' :: ' ' :: l := rfl

theorem startsSep_false_of_notMatch (c : Char) (rest : List Char)
    (h : ∀ r : List Char, c = ' ' → rest = 'i' :: 'n' :: ' ' :: r → False) :
    startsSep (c :: rest) = false := by
  cases hb : startsSep (c :: rest) with
  | false => rfl
  | true =>
    obtain ⟨t, ht⟩ := (isPrefixL_iff sepIn (c :: rest)).mp hb
    rw [sepIn_append] at ht
    injection ht with h1 h2
    exact (h t h1 h2).elim

theorem splitIn_notSep (c : Char) (rest : List Char)
    (h : startsSep (c :: rest) = false) :
    splitIn (c :: rest) = consHead c (splitIn rest) := by
  apply splitIn.eq_3
  intro r hc hr
  subst hc; subst hr
  rw [startsSep_sep] at h
  exact Bool.noConfusion h

theorem consHead_ne_nil (c : Char) (xs : List (List Char)) :
    consHead c xs ≠ [] := by
  cases xs <;> simp [consHead]

theorem splitIn_ne_nil (s : List Char) : splitIn s ≠ [] := by
  induction s using splitIn.induct with
  | case1 => simp [splitIn]
  | case2 r ih => simp [splitIn]
  | case3 c rest hno ih =>
    rw [splitIn_notSep c rest (startsSep_false_of_notMatch c rest hno)]
    exact consHead_ne_nil c (splitIn rest)

theorem countIn_cons (c : Char) (rest : List Char) :
    countIn (c :: rest) =
      (if startsSep (c :: rest) then 1 else 0) + countIn rest := rfl

theorem countIn_le_cons (c : Char) (rest : List Char) :
    countIn rest ≤ countIn (c :: rest) := by
  rw [countIn_cons]
  exact Nat.le_add_left _ _

theorem countIn_eq_zero_iff (s : List Char) :
    countIn s = 0 ↔ occursL sepIn s = false := by
  induction s with
  | nil => simp [countIn, occursL, sepIn]
  | cons c rest ih =>
    rw [countIn_cons]
    show _ ↔ (isPrefixL sepIn (c :: rest) || occursL sepIn rest) = false
    cases hb : startsSep (c :: rest) with
    | true =>
      unfold startsSep at hb
      simp [hb]
    | false =>
      unfold startsSep at hb
      simp [hb, ih]

theorem splitIn_no_occ (s : List Char) (h : countIn s = 0) :
    splitIn s = [s] := by
  induction s using splitIn.induct with
  | case1 => rfl
  | case2 r ih =>
    rw [countIn_cons, startsSep_sep] at h
    simp at h
  | case3 c rest hno ih =>
    have hss := startsSep_false_of_notMatch c rest hno
    rw [countIn_cons, hss] at h
    simp at h
    rw [splitIn_notSep c rest hss, ih h]
    rfl

theorem countIn_ge_one (p l : List Char) :
    1 ≤ countIn (p ++ (sepIn ++ l)) := by
  induction p with
  | nil =>
    rw [List.nil_append, sepIn_append, countIn_cons, startsSep_sep]
    simp
  | cons c p' ih =>
    rw [List.cons_append, countIn_cons]
    omega

theorem splitIn_length_two (s : List Char) (h : 1 ≤ countIn s) :
    2 ≤ (splitIn s).length := by
  induction s using splitIn.induct with
  | case1 => simp [countIn] at h
  | case2 r ih =>
    show 2 ≤ ([] :: splitIn r).length
    have := splitIn_ne_nil r
    have hlen : 1 ≤ (splitIn r).length := List.length_pos.mpr this
    simp only [List.length_cons]
    omega
  | case3 c rest hno ih =>
    have hss := startsSep_false_of_notMatch c rest hno
    rw [countIn_cons, hss] at h
    simp at h
    have h2 := ih h
    rw [splitIn_notSep c rest hss]
    rcases hsp : splitIn rest with _ | ⟨a, _ | ⟨b, t⟩⟩
    · exact absurd hsp (splitIn_ne_nil rest)
    · rw [hsp] at h2; simp at h2
    · rw [hsp] at h2; simp [consHead]

theorem lastSeg_consHead (c : Char) (xs : List (List Char))
    (h : 2 ≤ xs.length) : lastSeg (consHead c xs) = lastSeg xs := by
  rcases xs with _ | ⟨a, _ | ⟨b, t⟩⟩
  · simp at h
  · simp at h
  · rfl

theorem splitIn_last_of_single (p l : List Char)
    (h : countIn (p ++ (sepIn ++ l)) = 1) :
    lastSeg (splitIn (p ++ (sepIn ++ l))) = l := by
  induction p with
  | nil =>
    rw [List.nil_append, sepIn_append] at h ⊢
    rw [countIn_cons, startsSep_sep] at h
    simp at h
    have hl : countIn l = 0 := by
      have h1 := countIn_le_cons ' ' l
      have h2 := countIn_le_cons 'n' (' ' :: l)
      have h3 := countIn_le_cons 'i' ('n' :: ' ' :: l)
      omega
    show lastSeg ([] :: splitIn l) = l
    rw [splitIn_no_occ l hl]
    rfl
  | cons c p' ih =>
    rw [List.cons_append] at h ⊢
    have hge := countIn_ge_one p' l
    rw [countIn_cons] at h
    cases hss : startsSep (c :: (p' ++ (sepIn ++ l))) with
    | true => rw [hss] at h; simp at h; omega
    | false =>
      rw [hss] at h
      simp at h
      rw [splitIn_notSep _ _ hss,
        lastSeg_consHead c _ (splitIn_length_two _ (by omega))]
      exact ih h

theorem occursL_tail (pat : List Char) (c : Char) (rest : List Char)
    (h : occursL pat (c :: rest) = false) : occursL pat rest = false := by
  rw [occursL] at h
  simp only [Bool.or_eq_false_iff] at h
  exact h.2

theorem occursL_stripL (pat : List Char) (p : Char → Bool) (s : List Char)
    (h : occursL pat s = false) : occursL pat (stripL p s) = false := by
  induction s with
  | nil => simpa [stripL] using h
  | cons c rest ih =>
    rw [stripL]
    by_cases hc : p c
    · rw [if_pos hc]; exact ih (occursL_tail pat c rest h)
    · rw [if_neg hc]; exact h

theorem isPrefixL_append_false (pat s t : List Char)
    (h : isPrefixL pat (s ++ t) = false) : isPrefixL pat s = false := by
  cases hb : isPrefixL pat s with
  | false => rfl
  | true =>
    obtain ⟨u, hu⟩ := (isPrefixL_iff pat s).mp hb
    subst hu
    have htr : isPrefixL pat ((pat ++ u) ++ t) = true :=
      (isPrefixL_iff pat _).mpr ⟨u ++ t, by simp⟩
    rw [htr] at h
    exact Bool.noConfusion h

theorem occursL_append_left (pat : List Char) : ∀ s t : List Char,
    occursL pat (s ++ t) = false → occursL pat s = false := by
  intro s
  induction s with
  | nil =>
    intro t h
    cases pat with
    | nil =>
      cases t with
      | nil => simp [occursL] at h
      | cons c ts => simp [occursL, isPrefixL] at h
    | cons a ps => simp [occursL]
  | cons c s' ih =>
    intro t h
    rw [List.cons_append, occursL] at h
    simp only [Bool.or_eq_false_iff] at h
    rw [occursL]
    simp only [Bool.or_eq_false_iff]
    constructor
    · have := isPrefixL_append_false pat (c :: s') t
      rw [List.cons_append] at this
      exact this h.1
    · exact ih t h.2

theorem stripR_pre (p : Char → Bool) (s : List Char) :
    ∃ t, s = stripR p s ++ t := by
  induction s with
  | nil => exact ⟨[], rfl⟩
  | cons c rest ih =>
    obtain ⟨t, ht⟩ := ih
    rw [stripR]
    rcases hsp : stripR p rest with _ | ⟨r, rs⟩
    · rw [hsp] at ht
      rw [keepR]
      by_cases hc : p c
      · rw [if_pos hc]; exact ⟨c :: rest, rfl⟩
      · rw [if_neg hc]; exact ⟨rest, by simp⟩
    · rw [hsp] at ht
      rw [keepR]
      exact ⟨t, by rw [ht]; simp⟩

theorem occursL_stripR (pat : List Char) (p : Char → Bool) (s : List Char)
    (h : occursL pat s = false) : occursL pat (stripR p s) = false := by
  obtain ⟨t, ht⟩ := stripR_pre p s
  rw [ht] at h
  exact occursL_append_left pat _ t h

theorem occursL_stripBoth (pat : List Char) (p : Char → Bool) (s : List Char)
    (h : occursL pat s = false) : occursL pat (stripBoth p s) = false :=
  occursL_stripR pat p _ (occursL_stripL pat p s h)

theorem extractLocation_no_sep (user_input : String)
    (h : occursL sepIn user_input.data = false) :
    extractLocation user_input =
      String.mk (stripQDot (pyStrip user_input.data)) := by
  unfold extractLocation
  have h1 : occursL sepIn (pyStrip user_input.data) = false :=
    occursL_stripBoth sepIn pyIsSpace _ h
  rw [splitIn_no_occ _ ((countIn_eq_zero_iff _).mpr h1)]
  rfl

/-! ## Lemmas about `Agent.run` -/

theorem run_take_two (a : Agent) (user_input : String) :
    (a.run user_input).lines.take 2 =
      [TraceLine.thought,
       TraceLine.actionLine "get_weather"
         [("location", extractLocation user_input)]] := by
  simp only [Agent.run, planAction]
  cases hd : dictGet "get_weather" a.tools with
  | none => simp [RunOutcome.lines]
  | some tool =>
    cases hr : tool.run [("location", extractLocation user_input)] with
    | error e => simp [RunOutcome.lines, hr]
    | ok result => simp [RunOutcome.lines, hr]

/-! ## Dictionary lemmas -/

theorem dictGet_dictInsert_self {α : Type} (k : String) (v : α)
    (d : List (String × α)) : dictGet k (dictInsert k v d) = some v := by
  induction d with
  | nil => simp [dictInsert, dictGet]
  | cons kv rest ih =>
    obtain ⟨k2, v2⟩ := kv
    rw [dictInsert]
    by_cases h : k = k2
    · rw [if_pos h, dictGet, if_pos rfl]
    · rw [if_neg h, dictGet, if_neg h]
      exact ih

theorem mem_dictInsert {α : Type} (x : String × α) (k : String) (v : α)
    (d : List (String × α)) (hx : x ∈ dictInsert k v d) :
    x = (k, v) ∨ x ∈ d := by
  induction d with
  | nil =>
    rw [dictInsert] at hx
    simp at hx
    exact Or.inl hx
  | cons kv rest ih =>
    obtain ⟨k2, v2⟩ := kv
    rw [dictInsert] at hx
    by_cases h : k = k2
    · rw [if_pos h] at hx
      rcases List.mem_cons.mp hx with h1 | h2
      · exact Or.inl h1
      · exact Or.inr (List.mem_cons_of_mem _ h2)
    · rw [if_neg h] at hx
      rcases List.mem_cons.mp hx with h1 | h2
      · exact Or.inr (h1 ▸ List.mem_cons_self _ _)
      · rcases ih h2 with h3 | h4
        · exact Or.inl h3
        · exact Or.inr (List.mem_cons_of_mem _ h4)

theorem keys_dictInsert {α : Type} (k2 k : String) (v : α)
    (d : List (String × α))
    (h : k2 ∈ (dictInsert k v d).map Prod.fst) :
    k2 = k ∨ k2 ∈ d.map Prod.fst := by
  rcases List.mem_map.mp h with ⟨x, hx, hfst⟩
  rcases mem_dictInsert x k v d hx with h1 | h2
  · left
    rw [← hfst, h1]
  · right
    exact List.mem_map.mpr ⟨x, h2, hfst⟩

theorem nodup_keys_dictInsert {α : Type} (k : String) (v : α)
    (d : List (String × α)) (h : (d.map Prod.fst).Nodup) :
    ((dictInsert k v d).map Prod.fst).Nodup := by
  induction d with
  | nil => simp [dictInsert]
  | cons kv rest ih =>
    obtain ⟨k2, v2⟩ := kv
    rw [List.map_cons, List.nodup_cons] at h
    rw [dictInsert]
    by_cases hk : k = k2
    · rw [if_pos hk, List.map_cons, List.nodup_cons]
      refine ⟨?_, h.2⟩
      rw [hk]
      exact h.1
    · rw [if_neg hk, List.map_cons, List.nodup_cons]
      constructor
      · intro hmem
        rcases keys_dictInsert k2 k v rest hmem with h1 | h2
        · exact hk h1.symm
        · exact h.1 h2
      · exact ih h.2

/-! ## Claims -/

/-- C1 (counterexample): the extracted location is NOT always the
trailing segment after the last occurrence of " in ". On
"x in in y?" the two occurrences of " in " overlap; CPython's
left-to-right non-overlapping split yields the segment "in y", while
the segment after the last occurrence, trimmed as the claim says, is
"y". A second divergence: the final trim removes only space, `?` and
`.`, not all whitespace, so on "a in \tT" the code keeps the tab. -/
theorem extractLocation_after_last_occurrence_cex :
    occursL sepIn "x in in y?".data = true ∧
    claimExtract "x in in y?" = some "y" ∧
    extractLocation "x in in y?" = "in y" ∧
    claimExtract "a in \tT" = some "T" ∧
    extractLocation "a in \tT" = "\tT" := by decide

/-- C1 (amended): whenever the stripped input contains exactly one
occurrence of " in " — in particular on well-formed inputs such as
"What is the weather in New York?" — the extracted location is the
trailing segment after it, trimmed of surrounding spaces and of the
characters `?` and `.`. In general the code takes the last segment of
the left-to-right non-overlapping split on " in ". -/
theorem extractLocation_single_occurrence (user_input : String)
    (p l : List Char)
    (hdec : pyStrip user_input.data = p ++ (sepIn ++ l))
    (hcount : countIn (pyStrip user_input.data) = 1) :
    extractLocation user_input = String.mk (stripQDot l) := by
  unfold extractLocation
  rw [hdec] at hcount ⊢
  rw [splitIn_last_of_single p l hcount]

/-- Witness for C1 at the spec's own example input. -/
theorem extractLocation_single_occurrence_witness :
    extractLocation "What is the weather in New York?" = "New York" := by
  have h := extractLocation_single_occurrence
    "What is the weather in New York?"
    ("What is the weather".data) ("New York?".data) (by decide) (by decide)
  rw [h]
  decide

/-- C2: on each key of the simulated table, `get_weather` returns the
exact associated description string. -/
theorem get_weather_known_keys :
    get_weather "New York" = "Partly cloudy, 15°C, 60% humidity" ∧
    get_weather "Tokyo" = "Sunny, 28°C, 40% humidity" ∧
    get_weather "Berlin" = "Rainy, 12°C, 85% humidity" := by decide

/-- C3: on any location that is not a key of the simulated table,
`get_weather` returns the literal fallback string. -/
theorem get_weather_unknown_key (location : String)
    (h1 : location ≠ "New York") (h2 : location ≠ "Tokyo")
    (h3 : location ≠ "Berlin") :
    get_weather location = "Weather data not available." := by
  simp [get_weather, simulated_weather, dictGet, h1, h2, h3]

/-- Witness for C3 at the concrete unknown key "Paris". -/
theorem get_weather_unknown_key_witness :
    get_weather "Paris" = "Weather data not available." :=
  get_weather_unknown_key "Paris" (by decide) (by decide) (by decide)

/-- C4: when no tool is registered under "get_weather", `run` prints
the failure notice and returns early: the trace is exactly Thought,
Action, tool-not-found, with no observation and no final response. -/
theorem run_tool_not_found (a : Agent) (user_input : String)
    (h : dictGet "get_weather" a.tools = none) :
    a.run user_input =
      .ok [.thought,
           .actionLine "get_weather" [("location", extractLocation user_input)],
           .toolNotFound] ∧
    (∀ loc res, TraceLine.finalResponse loc res ∉ (a.run user_input).lines) ∧
    (∀ res, TraceLine.observation res ∉ (a.run user_input).lines) := by
  have hrun : a.run user_input =
      RunOutcome.ok [.thought,
        .actionLine "get_weather" [("location", extractLocation user_input)],
        .toolNotFound] := by
    simp only [Agent.run, planAction]
    rw [h]
    rfl
  refine ⟨hrun, ?_, ?_⟩
  · intro loc res
    rw [hrun]
    simp [RunOutcome.lines]
  · intro res
    rw [hrun]
    simp [RunOutcome.lines]

/-- Witness for C4: an agent with an empty registry. -/
theorem run_tool_not_found_witness :
    (Agent.mk []).run "hi" =
      .ok [.thought,
           .actionLine "get_weather" [("location", extractLocation "hi")],
           .toolNotFound] ∧
    (∀ loc res,
      TraceLine.finalResponse loc res ∉ ((Agent.mk []).run "hi").lines) ∧
    (∀ res, TraceLine.observation res ∉ ((Agent.mk []).run "hi").lines) :=
  run_tool_not_found (Agent.mk []) "hi" rfl

/-- C5 (counterexample): an input CONTAINING " in Tokyo" need not
yield the Tokyo weather: "weather in Tokyoville?" contains the
substring " in Tokyo" but extracts "Tokyoville", so the final message
carries the fallback string and does not contain the Tokyo report. -/
theorem run_contains_inTokyo_cex :
    occursL " in Tokyo".data "weather in Tokyoville?".data = true ∧
    demoAgent.run "weather in Tokyoville?" =
      .ok [.thought, .actionLine "get_weather" [("location", "Tokyoville")],
           .observation "Weather data not available.", .updatedThought,
           .finalResponse "Tokyoville" "Weather data not available."] ∧
    occursL "Sunny, 28°C, 40% humidity".data
      (renderFinal "Tokyoville" "Weather data not available.").data
        = false := by decide

/-- C5 (amended): after registering `get_weather`, any input whose
EXTRACTED location is "Tokyo" (e.g. any input ending in " in Tokyo"
up to trailing `?`/`.`/spaces) yields the Tokyo report in the
observation and in the final message, which contains the string
"Sunny, 28°C, 40% humidity". -/
theorem run_tokyo_final (user_input : String)
    (h : extractLocation user_input = "Tokyo") :
    demoAgent.run user_input =
      .ok [.thought, .actionLine "get_weather" [("location", "Tokyo")],
           .observation "Sunny, 28°C, 40% humidity", .updatedThought,
           .finalResponse "Tokyo" "Sunny, 28°C, 40% humidity"] ∧
    ∃ s t, renderFinal "Tokyo" "Sunny, 28°C, 40% humidity" =
        s ++ "Sunny, 28°C, 40% humidity" ++ t := by
  constructor
  · simp only [Agent.run, planAction, h]
    decide
  · exact ⟨"\n💬 Final Response: The current weather in Tokyo is: ", "",
      by decide⟩

/-- Witness for C5 at the concrete input "weather in Tokyo". -/
theorem run_tokyo_final_witness :
    demoAgent.run "weather in Tokyo" =
      .ok [.thought, .actionLine "get_weather" [("location", "Tokyo")],
           .observation "Sunny, 28°C, 40% humidity", .updatedThought,
           .finalResponse "Tokyo" "Sunny, 28°C, 40% humidity"] ∧
    ∃ s t, renderFinal "Tokyo" "Sunny, 28°C, 40% humidity" =
        s ++ "Sunny, 28°C, 40% humidity" ++ t :=
  run_tokyo_final "weather in Tokyo" (by decide)

/-- C6: registering two callables with the same name silently
overwrites: after both registrations, looking the name up retrieves
the tool built from the second callable. (Registration is a total
function: no error is possible.) -/
theorem register_tool_overwrite (a : Agent) (f g : PyFunc)
    (h : f.name = g.name) :
    dictGet f.name ((a.register_tool f).register_tool g).tools
      = some (mkTool g) := by
  show dictGet f.name (dictInsert (mkTool g).name (mkTool g)
      (dictInsert (mkTool f).name (mkTool f) a.tools)) = some (mkTool g)
  have hg : (mkTool g).name = g.name := rfl
  rw [hg, ← h]
  exact dictGet_dictInsert_self f.name (mkTool g) _

/-- Witness for C6 with two concrete callables both named "dup". -/
theorem register_tool_overwrite_witness :
    dictGet dupF.name
        (((Agent.mk []).register_tool dupF).register_tool dupG).tools
      = some (mkTool dupG) :=
  register_tool_overwrite (Agent.mk []) dupF dupG rfl

/-- C7: `Tool.run(**kwargs)` forwards the keyword arguments to the
wrapped callable and returns its result unchanged; in particular a
raised error propagates unhandled. -/
theorem tool_run_forwards (n d : String)
    (f : KwArgs → Except String String) (kwargs : KwArgs) :
    (Tool.mk n d f).run kwargs = f kwargs ∧
    ∀ e, f kwargs = .error e → (Tool.mk n d f).run kwargs = .error e :=
  ⟨rfl, fun _ he => he⟩

/-- Witness for C7 with a concrete raising callable. -/
theorem tool_run_forwards_witness :
    (Tool.mk "t" "desc" (fun _ => Except.error "boom")).run []
      = Except.error "boom" :=
  (tool_run_forwards "t" "desc" (fun _ => Except.error "boom") []).2
    "boom" rfl

/-- C8: for every input the action record names exactly the fixed tool
"get_weather" and carries only the extracted location; for every agent
(whatever tools are registered) the run's first two trace lines are
the Thought line and that same fixed action line. -/
theorem planAction_fixed (user_input : String) :
    (planAction user_input).action = "get_weather" ∧
    (planAction user_input).action_input =
      [("location", extractLocation user_input)] ∧
    ∀ a : Agent, (a.run user_input).lines.take 2 =
      [TraceLine.thought, TraceLine.actionLine "get_weather"
        [("location", extractLocation user_input)]] :=
  ⟨rfl, rfl, fun a => run_take_two a user_input⟩

/-- C9: `register_tool` preserves the registry invariant (unique keys,
each key equal to the stored tool's name, which is the handler's
`__name__`), and `run` leaves the registry unchanged. -/
theorem registry_invariant_preserved (a : Agent) (f : PyFunc)
    (user_input : String) (h : RegistryInv a.tools) :
    RegistryInv ((a.register_tool f).tools) ∧
    dictGet f.name ((a.register_tool f).tools) = some (mkTool f) ∧
    (mkTool f).name = f.name ∧
    (a.runS user_input).1.tools = a.tools := by
  refine ⟨⟨?_, ?_⟩, ?_, rfl, rfl⟩
  · exact nodup_keys_dictInsert (mkTool f).name (mkTool f) a.tools h.1
  · intro kt hkt
    rcases mem_dictInsert kt (mkTool f).name (mkTool f) a.tools hkt
      with h1 | h2
    · rw [h1]
    · exact h.2 kt h2
  · exact dictGet_dictInsert_self (mkTool f).name (mkTool f) a.tools

/-- Witness for C9: registering `get_weather` into an empty registry. -/
theorem registry_invariant_preserved_witness :
    RegistryInv (((Agent.mk []).register_tool get_weather_py).tools) ∧
    dictGet get_weather_py.name
        (((Agent.mk []).register_tool get_weather_py).tools)
      = some (mkTool get_weather_py) ∧
    (mkTool get_weather_py).name = get_weather_py.name ∧
    ((Agent.mk []).runS "hi").1.tools = (Agent.mk []).tools :=
  registry_invariant_preserved (Agent.mk []) get_weather_py "hi"
    ⟨List.nodup_nil, fun kt hkt => absurd hkt (List.not_mem_nil kt)⟩

/-- C10: on input with no occurrence of " in ", extraction does not
fail: the location is the whole input stripped of surrounding
whitespace and then of leading/trailing space, `?`, `.`; and the run
still proceeds through the same fixed get_weather action. -/
theorem run_no_sep (user_input : String)
    (h : occursL sepIn user_input.data = false) :
    extractLocation user_input =
      String.mk (stripQDot (pyStrip user_input.data)) ∧
    ∀ a : Agent, (a.run user_input).lines.take 2 =
      [TraceLine.thought, TraceLine.actionLine "get_weather"
        [("location", extractLocation user_input)]] :=
  ⟨extractLocation_no_sep user_input h, fun a => run_take_two a user_input⟩

/-- Witness for C10 at the concrete input "Tokyo?". -/
theorem run_no_sep_witness :
    extractLocation "Tokyo?" =
      String.mk (stripQDot (pyStrip "Tokyo?".data)) ∧
    ∀ a : Agent, (a.run "Tokyo?").lines.take 2 =
      [TraceLine.thought, TraceLine.actionLine "get_weather"
        [("location", extractLocation "Tokyo?")]] :=
  run_no_sep "Tokyo?" (by decide)
